import Mathlib

set_option maxRecDepth 10000

/-!
Shallow embedding of the RFID card tool (Rust sources: `src/main.rs`,
`src/card_operations.rs`, `src/utils.rs`).

Machine integers are modelled as `Nat` (for `u8` values and 128-bit
twos-complement bit patterns) and `Int` (for the signed value of an `i128`),
with explicit `% 2 ^ 128` where the Rust code wraps.  Code that can panic
(`unwrap`, out-of-bounds indexing) is modelled with `Option`: a `none` result
marks a panic.  The external card is modelled as a map from block numbers to
block contents; it changes exactly when a write frame is transmitted.
-/

namespace RFID

/-! ## Frame codec

APDU command frames, byte for byte as built in `card_operations.rs` and
`main.rs` (both files build identical frames). -/

/-- Default authentication key, the all-0xFF 6-byte value
(`[0xff; 6]` literals in `read` in both files). -/
def defaultKey : List Nat := [0xFF, 0xFF, 0xFF, 0xFF, 0xFF, 0xFF]

/-- Load Key frame (`load_key_apdu` in `keyload`). -/
def load_key_apdu (key : List Nat) : List Nat :=
  [0xFF, 0x82, 0x00, 0x00, 0x06] ++ key

/-- General Authenticate frame (`auth_apdu` in `auth`). -/
def auth_apdu (block : Nat) : List Nat :=
  [0xFF, 0x86, 0x00, 0x00, 0x05, 0x01, 0x00, block, 0x60, 0x00]

/-- Read Binary frame (`read_apdu` in `read`). -/
def read_apdu (block : Nat) : List Nat :=
  [0xFF, 0xB0, 0x00, block, 0x10]

/-- Write Binary frame (`write_apdu` in `write`); index 3 is P2 = block. -/
def write_apdu (block : Nat) (data : List Nat) : List Nat :=
  [0xFF, 0xD6, 0x00, block, 0x10] ++ data

/-- The 256-byte zero-initialised response buffer (`let mut rapdu = [0; 256]`)
after the card response `resp` has been copied into its front. -/
def buffer256 (resp : List Nat) : List Nat :=
  resp ++ List.replicate (256 - resp.length) 0

/-! ## Session primitives: status-word handling

`CardManager::keyload` (card_operations.rs:63-89): on a successful
transmission the `Ok` arm executes `return 1;` immediately, so the
status-word comparison below the `match` only runs when the transmission
failed (in which case `rapdu` is still all zeros).  `transmit` is modelled
as an `Except`: `ok resp` is a successful transmission whose response is
`resp`, `error ()` is a transport failure. -/
def keyload (transmit : Except Unit (List Nat)) : Nat :=
  match transmit with
  | Except.ok _ => 1
  | Except.error _ =>
      let rapdu : List Nat := List.replicate 256 0
      let status_word := rapdu.take 2
      if status_word ≠ [0x90, 0x00] then 0 else 1

/-- `CardManager::auth` (card_operations.rs:106-130) after a successful
transmission: returns 0 when `rapdu[0] != 0x90`, else 1.  `rapdu` is the
256-byte buffer (`buffer256` of the response). -/
def auth (rapdu : List Nat) : Nat :=
  if rapdu.headD 0 ≠ 0x90 then 0 else 1

/-- Report printed by `write` (card_operations.rs:201-205, main.rs:390-394)
after a successful transmission: `"Success"` when `rapdu[16] != 0x90`,
else `"Failed"`. -/
def write_report (rapdu : List Nat) : String :=
  if rapdu.getD 16 0 ≠ 0x90 then "Success" else "Failed"

/-! ## Card state and the write operation -/

/-- The external card: block number to 16-byte content. -/
def Card : Type := Nat → List Nat

/-- Effect on the card of a transmitted Write Binary frame for `block`. -/
def card_apply_write (card : Card) (block : Nat) (data : List Nat) : Card :=
  fun b => if b = block then data else card b

/-- The `write` operation (card_operations.rs:182-206 and main.rs:371-395,
identical logic): refuses `block < 4` with only a printed message (no
transmission, card untouched); otherwise transmits exactly one write frame,
which updates the card.  Result: (card after the operation, frames
transmitted on the wire). -/
def write (card : Card) (block : Nat) (data : List Nat) :
    Card × List (List Nat) :=
  if block < 4 then (card, [])
  else (card_apply_write card block data, [write_apdu block data])

/-- Block numbers read by `CardManager::read_sector` (card_operations.rs:
224-234): `start_block = sector * 4` (u8 multiplication wraps mod 256),
then `block_offset in 0..3`. -/
def read_sector_blocks (sector : Nat) : List Nat :=
  (List.range 3).map (fun block_offset => sector * 4 % 256 + block_offset)

/-- Block numbers read by the distinct `read_sector` in main.rs:265-272:
`for index_block in index..index + 4` over u8 (the upper bound wraps mod
256; an upper bound at or below `index` gives an empty range). -/
def main_read_sector_blocks (index : Nat) : List Nat :=
  (List.range ((index + 4) % 256 - index)).map (fun i => index + i)

/-- Calls to `write` issued by `CardManager::write_sector`
(card_operations.rs:249-256): `start` is `sector * 4` as u8, `off` the
running `enumerate` index, cast `as u8` and added with u8 wrapping. -/
def write_sector_calls_aux (start : Nat) :
    Nat → List (List Nat) → List (Nat × List Nat)
  | _, [] => []
  | off, d :: rest =>
      ((start + off % 256) % 256, d) :: write_sector_calls_aux start (off + 1) rest

/-- The (block, data) pairs `CardManager::write_sector` passes to `write`,
in order. -/
def write_sector_calls (sector : Nat) (data : List (List Nat)) :
    List (Nat × List Nat) :=
  write_sector_calls_aux (sector * 4 % 256) 0 data

/-! ## Balance codec: `hexa_to_tableau` (utils.rs:43-55 and main.rs:315-327) -/

/-- Value of one hexadecimal digit character, as accepted by
`u8::from_str_radix(_, 16)` (digits `0-9`, `a-f`, `A-F`). -/
def hexCharVal (c : Char) : Option Nat :=
  if '0' ≤ c ∧ c ≤ '9' then some (c.toNat - 48)
  else if 'A' ≤ c ∧ c ≤ 'F' then some (c.toNat - 55)
  else if 'a' ≤ c ∧ c ≤ 'f' then some (c.toNat - 87)
  else none

/-- `u8::from_str_radix(hex_str, 16)` on a 2-character chunk: an optional
leading `+` sign followed by hex digits; `none` models the `Err` that the
code `unwrap`s (a panic). -/
def parse_u8_hex (c1 c2 : Char) : Option Nat :=
  if c1 = '+' then hexCharVal c2
  else
    match hexCharVal c1, hexCharVal c2 with
    | some a, some b => some (16 * a + b)
    | _, _ => none

/-- `chunks_exact(2)`: the complete 2-character chunks of the string, a
trailing odd character being dropped. -/
def chunksExact2 : List Char → List (Char × Char)
  | c1 :: c2 :: rest => (c1, c2) :: chunksExact2 rest
  | _ => []

/-- Loop body of `hexa_to_tableau`: for each chunk, `unwrap` the parse
(panic on a bad chunk, modelled `none`) and store at `tableau[index]`
(panic when `index` reaches 16 with chunks remaining, modelled `none`). -/
def hexa_to_tableau_loop :
    List (Char × Char) → Nat → List Nat → Option (List Nat)
  | [], _, tableau => some tableau
  | (c1, c2) :: rest, index, tableau =>
      match parse_u8_hex c1 c2 with
      | none => none
      | some byte =>
          if index < 16 then
            hexa_to_tableau_loop rest (index + 1) (tableau.set index byte)
          else none

/-- `hexa_to_tableau` (utils.rs:43-55, main.rs:315-327): a 16-byte array of
zeros, filled chunk by chunk; `none` models a panic. -/
def hexa_to_tableau (hexa : List Char) : Option (List Nat) :=
  hexa_to_tableau_loop (chunksExact2 hexa) 0 (List.replicate 16 0)

/-! ## Balance codec: `hexa_to_decimal` (utils.rs:89-97 and main.rs:430-438)

The Rust accumulator is an `i128`; `resultat << 8` discards the bits
shifted past bit 127, and `| hex` fills the low byte.  We track the
128-bit twos-complement bit pattern as a `Nat` and reinterpret it as a
signed value at the end. -/

/-- Signed value of a 128-bit twos-complement bit pattern. -/
def i128_val (pattern : Nat) : Int :=
  if pattern < 2 ^ 127 then (pattern : Int) else (pattern : Int) - 2 ^ 128

/-- `hexa_to_decimal`: fold `resultat = (resultat << 8) | hex` over the
bytes (big-endian), on the 128-bit bit pattern, then reinterpret signed.
For byte values `b < 256` the step equals `(acc * 256 + b) % 2 ^ 128`. -/
def hexa_to_decimal (tableau : List Nat) : Int :=
  i128_val (tableau.foldl (fun acc b => (acc * 256 + b) % 2 ^ 128) 0)

/-- Specification-side decoder: the bytes as a big-endian base-256 number
(byte 0 most significant), with no truncation.  Used to compare
`hexa_to_decimal` against the wording of the spec. -/
def beValue (tableau : List Nat) : Nat :=
  tableau.foldl (fun acc b => acc * 256 + b) 0

/-! ## Balance encoding: `format!("{:0>32X}", balance)` in main.rs

Rust formats an `i128` with `{:X}` as the uppercase hex digits of its
128-bit twos-complement bit pattern, without leading zeros (`"0"` for 0);
`{:0>32X}` then left-pads with '0' to width 32. -/

/-- Uppercase hexadecimal digit character for `d < 16`. -/
def hexDigit (d : Nat) : Char :=
  if d < 10 then Char.ofNat (48 + d) else Char.ofNat (55 + d)

/-- Big-endian uppercase hex digits of `n`, empty for 0. -/
def hexDigitsN (n : Nat) : List Char :=
  (Nat.digits 16 n).reverse.map hexDigit

/-- The 128-bit twos-complement bit pattern of an `i128` value. -/
def i128_bits (v : Int) : Nat := (v % (2 : Int) ^ 128).toNat

/-- `format!("{:X}", v)` for `v : i128`. -/
def upperHex_i128 (v : Int) : List Char :=
  if i128_bits v = 0 then ['0'] else hexDigitsN (i128_bits v)

/-- `format!("{:0>32X}", v)` for `v : i128`. -/
def format_hex32 (v : Int) : List Char :=
  List.replicate (32 - (upperHex_i128 v).length) '0' ++ upperHex_i128 v

/-- Exactly `k` big-endian hex digit characters of `n` (leading zeros
kept, high digits beyond `k` dropped).  Helper for reasoning about the
padded format. -/
def hexN : Nat → Nat → List Char
  | 0, _ => []
  | k + 1, n => hexN k (n / 16) ++ [hexDigit (n % 16)]

/-- Exactly `k` big-endian bytes of `n` (leading zeros kept, high bytes
beyond `k` dropped). -/
def beBytes : Nat → Nat → List Nat
  | 0, _ => []
  | k + 1, n => beBytes k (n / 256) ++ [n % 256]

/-- The 2-character hex chunks of `hexN (2 * k) n`, in order. -/
def hexPairs : Nat → Nat → List (Char × Char)
  | 0, _ => []
  | k + 1, n => hexPairs k (n / 256) ++ [(hexDigit (n / 16 % 16), hexDigit (n % 16))]

/-- The 16 bytes produced by the deposit/withdraw path for a balance `v`:
`hexa_to_tableau (format_hex32 v)` always yields exactly these. -/
def encode16 (v : Int) : List Nat := beBytes 16 (i128_bits v)

/-- Wrap an integer into the `i128` range: the signed value of its 128-bit
twos-complement bit pattern.  This is what an overflowing `i128` addition
or subtraction produces in a release build. -/
def i128_wrap (v : Int) : Int := i128_val (i128_bits v)

/-! ## The interactive balance loop (main.rs:496-544) -/

/-- A parsed command line of the main loop. -/
inductive Command : Type
  | depot (amount : Int)
  | retrait (amount : Int)
  | invalid

/-- One iteration of the main loop on a valid command (main.rs:517-543):
`depot` adds the amount (`balance += amount`), formats the new balance and
writes it to block 4; `retrait` does the same with `balance -= amount`
after checking `amount <= balance`, otherwise it only prints a refusal.
The `i128` balance update wraps into the 128-bit twos-complement range
(`i128_wrap`), as in a release build; a debug build panics at exactly the
overflowing inputs, so on non-overflowing inputs both builds agree with
this model.  Result: `none` if `hexa_to_tableau` panicked, else
(new balance, card after the operation, frames transmitted). -/
def main_step (cmd : Command) (balance : Int) (card : Card) :
    Option (Int × Card × List (List Nat)) :=
  match cmd with
  | Command.depot amount =>
      let b := i128_wrap (balance + amount)
      (hexa_to_tableau (format_hex32 b)).map fun t =>
        let r := write card 4 t
        (b, r.1, r.2)
  | Command.retrait amount =>
      if amount ≤ balance then
        let b := i128_wrap (balance - amount)
        (hexa_to_tableau (format_hex32 b)).map fun t =>
          let r := write card 4 t
          (b, r.1, r.2)
      else some (balance, card, [])
  | Command.invalid => some (balance, card, [])

/-- A fixed card used to instantiate theorems at concrete inputs. -/
def testCard : Card := fun _ => List.replicate 16 0

/-- The 16 bytes of hex string 00000000000000000000000000000010. -/
def block4_init : List Nat := [0, 0, 0, 0, 0, 0, 0, 0, 0, 0, 0, 0, 0, 0, 0, 0x10]

/-- The 16 bytes of hex string 00000000000000000000000000000015. -/
def block4_new : List Nat := [0, 0, 0, 0, 0, 0, 0, 0, 0, 0, 0, 0, 0, 0, 0, 0x15]

/-- A card whose block 4 holds `block4_init`. -/
def card_C8 : Card := fun b => if b = 4 then block4_init else List.replicate 16 0

/-- State of the 16-byte array after `hexa_to_tableau` has stored the `k`
big-endian bytes of `n` at indices `idx, idx + 1, ..., idx + k - 1`. -/
def tabWrite (tab : List Nat) (idx : Nat) : Nat → Nat → List Nat
  | 0, _ => tab
  | k + 1, n => (tabWrite tab idx k (n / 256)).set (idx + k) (n % 256)

/-! ## Lemmas: chunking and parsing of hex strings -/

theorem chunksExact2_append_pair :
    ∀ (xs : List Char), xs.length % 2 = 0 → ∀ a b : Char,
      chunksExact2 (xs ++ [a, b]) = chunksExact2 xs ++ [(a, b)]
  | [], _, a, b => rfl
  | [x], h, a, b => by simp at h
  | x :: y :: rest, h, a, b => by
      have hr : rest.length % 2 = 0 := by
        simp only [List.length_cons] at h
        omega
      simp [chunksExact2, chunksExact2_append_pair rest hr a b]

theorem length_hexN : ∀ (k n : Nat), (hexN k n).length = k
  | 0, _ => rfl
  | k + 1, n => by simp [hexN, length_hexN k (n / 16)]

theorem length_beBytes : ∀ (k n : Nat), (beBytes k n).length = k
  | 0, _ => rfl
  | k + 1, n => by simp [beBytes, length_beBytes k (n / 256)]

theorem length_hexPairs : ∀ (k n : Nat), (hexPairs k n).length = k
  | 0, _ => rfl
  | k + 1, n => by simp [hexPairs, length_hexPairs k (n / 256)]

theorem chunksExact2_hexN : ∀ (k n : Nat),
    chunksExact2 (hexN (2 * k) n) = hexPairs k n
  | 0, n => rfl
  | k + 1, n => by
      have h2 : 2 * (k + 1) = 2 * k + 1 + 1 := by ring
      rw [h2]
      show chunksExact2 (hexN (2 * k + 1) (n / 16) ++ [hexDigit (n % 16)]) = _
      show chunksExact2 ((hexN (2 * k) (n / 16 / 16) ++ [hexDigit (n / 16 % 16)]) ++
        [hexDigit (n % 16)]) = _
      rw [Nat.div_div_eq_div_mul]
      norm_num
      rw [chunksExact2_append_pair _ (by simp [length_hexN]),
        chunksExact2_hexN k (n / 256)]
      rfl

theorem hexCharVal_hexDigit (d : Nat) (h : d < 16) :
    hexCharVal (hexDigit d) = some d := by
  interval_cases d <;> decide

theorem hexDigit_ne_plus (d : Nat) (h : d < 16) : hexDigit d ≠ '+' := by
  interval_cases d <;> decide

theorem parse_u8_hex_hexDigit (a b : Nat) (ha : a < 16) (hb : b < 16) :
    parse_u8_hex (hexDigit a) (hexDigit b) = some (16 * a + b) := by
  rw [parse_u8_hex, if_neg (hexDigit_ne_plus a ha), hexCharVal_hexDigit a ha,
    hexCharVal_hexDigit b hb]

theorem hexa_to_tableau_loop_append : ∀ (ps qs : List (Char × Char))
    (idx : Nat) (tab : List Nat),
    hexa_to_tableau_loop (ps ++ qs) idx tab =
      (hexa_to_tableau_loop ps idx tab).bind
        (fun tab2 => hexa_to_tableau_loop qs (idx + ps.length) tab2)
  | [], qs, idx, tab => by simp [hexa_to_tableau_loop]
  | (c1, c2) :: rest, qs, idx, tab => by
      rw [List.cons_append, hexa_to_tableau_loop, hexa_to_tableau_loop]
      cases parse_u8_hex c1 c2 with
      | none => rfl
      | some byte =>
          by_cases h : idx < 16
          · simp only [h, if_true,
              hexa_to_tableau_loop_append rest qs (idx + 1) (tab.set idx byte),
              List.length_cons]
            have : idx + 1 + rest.length = idx + (rest.length + 1) := by omega
            rw [this]
          · simp [h]

theorem loop_hexPairs : ∀ (k n idx : Nat) (tab : List Nat), idx + k ≤ 16 →
    hexa_to_tableau_loop (hexPairs k n) idx tab = some (tabWrite tab idx k n)
  | 0, n, idx, tab, _ => rfl
  | k + 1, n, idx, tab, h => by
      rw [hexPairs, hexa_to_tableau_loop_append,
        loop_hexPairs k (n / 256) idx tab (by omega)]
      rw [Option.bind, length_hexPairs]
      rw [hexa_to_tableau_loop,
        parse_u8_hex_hexDigit _ _ (Nat.mod_lt _ (by norm_num)) (Nat.mod_lt _ (by norm_num))]
      have hm : 16 * (n / 16 % 16) + n % 16 = n % 256 := by
        have h256 : (256 : Nat) = 16 * 16 := by norm_num
        rw [h256, Nat.mod_mul]
        ring
      rw [hm]
      show (if idx + k < 16 then
          hexa_to_tableau_loop [] (idx + k + 1)
            ((tabWrite tab idx k (n / 256)).set (idx + k) (n % 256))
        else none) = some (tabWrite tab idx (k + 1) n)
      rw [if_pos (by omega : idx + k < 16)]
      rfl

theorem tabWrite_eq : ∀ (k n idx : Nat) (tab : List Nat), idx + k ≤ tab.length →
    tabWrite tab idx k n = tab.take idx ++ beBytes k n ++ tab.drop (idx + k)
  | 0, n, idx, tab, _ => by simp [tabWrite, beBytes]
  | k + 1, n, idx, tab, h => by
      rw [tabWrite, tabWrite_eq k (n / 256) idx tab (by omega)]
      rw [show tab.take idx ++ beBytes k (n / 256) ++ tab.drop (idx + k) =
        (tab.take idx ++ beBytes k (n / 256)) ++ tab.drop (idx + k) from by
          simp [List.append_assoc]]
      have hlen : (tab.take idx ++ beBytes k (n / 256)).length = idx + k := by
        simp [List.length_take, length_beBytes]
        omega
      rw [List.set_append_right _ _ (le_of_eq hlen), hlen, Nat.sub_self,
        List.drop_eq_getElem_cons (show idx + k < tab.length by omega),
        List.set_cons_zero]
      rw [beBytes]
      simp only [List.append_assoc, List.singleton_append, Nat.add_succ]

theorem hexa_to_tableau_hexN (n : Nat) :
    hexa_to_tableau (hexN 32 n) = some (beBytes 16 n) := by
  rw [hexa_to_tableau, show (32 : Nat) = 2 * 16 from rfl, chunksExact2_hexN,
    loop_hexPairs 16 n 0 _ (by norm_num),
    tabWrite_eq 16 n 0 _ (by simp)]
  simp

/-! ## Lemmas: the padded formatter equals the exact-width hex writer -/

theorem hexN_zero : ∀ k : Nat, hexN k 0 = List.replicate k '0'
  | 0 => rfl
  | k + 1 => by
      rw [hexN, Nat.zero_div, hexN_zero k, List.replicate_succ']
      rfl

theorem hexN_eq_pad : ∀ (k n : Nat), n < 16 ^ k →
    List.replicate (k - (hexDigitsN n).length) '0' ++ hexDigitsN n = hexN k n
  | 0, n, h => by
      interval_cases n
      simp [hexDigitsN, hexN]
  | k + 1, n, h => by
      rcases Nat.eq_zero_or_pos n with hn | hn
      · subst hn
        simp [hexDigitsN, hexN_zero]
      · have hdig : Nat.digits 16 n = n % 16 :: Nat.digits 16 (n / 16) :=
          Nat.digits_def' (by norm_num) hn
        have hsplit : hexDigitsN n = hexDigitsN (n / 16) ++ [hexDigit (n % 16)] := by
          rw [hexDigitsN, hexDigitsN, hdig, List.reverse_cons, List.map_append]
          rfl
        have hdivlt : n / 16 < 16 ^ k := by
          rw [Nat.div_lt_iff_lt_mul (by norm_num : (0 : Nat) < 16)]
          calc n < 16 ^ (k + 1) := h
            _ = 16 ^ k * 16 := by ring
        rw [hexN, hsplit, List.length_append, List.length_singleton,
          show k + 1 - ((hexDigitsN (n / 16)).length + 1) =
            k - (hexDigitsN (n / 16)).length from by omega,
          ← List.append_assoc, hexN_eq_pad k (n / 16) hdivlt]

theorem i128_bits_lt (v : Int) : i128_bits v < 2 ^ 128 := by
  rw [i128_bits]
  have h1 : v % (2 : Int) ^ 128 < (2 : Int) ^ 128 :=
    Int.emod_lt_of_pos v (by positivity)
  omega

/-- Wrapping is the identity on the `i128` range, so the modelled balance
update agrees with both build profiles wherever the program does not
overflow. -/
theorem i128_wrap_eq_self (v : Int) (h1 : -(2 ^ 127) ≤ v) (h2 : v < 2 ^ 127) :
    i128_wrap v = v := by
  rw [i128_wrap, i128_val, i128_bits]
  split_ifs with h <;> omega

theorem format_hex32_eq_hexN (v : Int) :
    format_hex32 v = hexN 32 (i128_bits v) := by
  rw [format_hex32, upperHex_i128]
  rcases eq_or_ne (i128_bits v) 0 with h0 | h0
  · rw [h0, if_pos rfl, hexN_zero]
    rfl
  · rw [if_neg h0]
    refine hexN_eq_pad 32 (i128_bits v) ?_
    calc i128_bits v < 2 ^ 128 := i128_bits_lt v
      _ = 16 ^ 32 := by norm_num

/-- The deposit/withdraw encoding path never panics: for every `i128`
balance `v` it produces exactly the 16 big-endian bytes of the 128-bit
bit pattern of `v`. -/
theorem tableau_format (v : Int) :
    hexa_to_tableau (format_hex32 v) = some (encode16 v) := by
  rw [format_hex32_eq_hexN, hexa_to_tableau_hexN, encode16]

/-! ## Lemmas: decoding -/

theorem foldl_be_beBytes : ∀ (k n a : Nat),
    List.foldl (fun acc b => acc * 256 + b) a (beBytes k n) =
      a * 256 ^ k + n % 256 ^ k
  | 0, n, a => by simp [beBytes, Nat.mod_one]
  | k + 1, n, a => by
      rw [beBytes, List.foldl_append, foldl_be_beBytes k (n / 256) a]
      have hmod : n % 256 ^ (k + 1) = n % 256 + 256 * (n / 256 % 256 ^ k) := by
        rw [show (256 : Nat) ^ (k + 1) = 256 * 256 ^ k from by ring, Nat.mod_mul]
      simp only [List.foldl_cons, List.foldl_nil]
      rw [hmod]
      ring

theorem foldl_mod_eq : ∀ (bs : List Nat) (a : Nat),
    List.foldl (fun acc b => (acc * 256 + b) % 2 ^ 128) (a % 2 ^ 128) bs =
      (List.foldl (fun acc b => acc * 256 + b) a bs) % 2 ^ 128
  | [], a => rfl
  | b :: bs, a => by
      rw [List.foldl_cons, List.foldl_cons]
      have hstep : (a % 2 ^ 128 * 256 + b) % 2 ^ 128 = (a * 256 + b) % 2 ^ 128 :=
        Nat.ModEq.add_right b (Nat.ModEq.mul_right 256 (Nat.mod_modEq a (2 ^ 128)))
      rw [hstep, ← foldl_mod_eq bs (a * 256 + b)]

/-- `hexa_to_decimal` equals the signed reinterpretation of the big-endian
value reduced modulo `2 ^ 128`, for every byte list. -/
theorem hexa_to_decimal_eq (t : List Nat) :
    hexa_to_decimal t = i128_val (beValue t % 2 ^ 128) := by
  rw [hexa_to_decimal, beValue, ← foldl_mod_eq t 0]
  rfl

theorem beValue_aux_lt : ∀ (t : List Nat) (a : Nat), (∀ b ∈ t, b < 256) →
    List.foldl (fun acc b => acc * 256 + b) a t < (a + 1) * 256 ^ t.length
  | [], a, _ => by simp
  | b :: bs, a, h => by
      have hb : b < 256 := h b (List.mem_cons_self b bs)
      have hrec := beValue_aux_lt bs (a * 256 + b)
        (fun x hx => h x (List.mem_cons_of_mem b hx))
      rw [List.foldl_cons, List.length_cons]
      calc List.foldl (fun acc b => acc * 256 + b) (a * 256 + b) bs
          < (a * 256 + b + 1) * 256 ^ bs.length := hrec
        _ ≤ (a + 1) * 256 ^ (bs.length + 1) := by
            have : a * 256 + b + 1 ≤ (a + 1) * 256 := by omega
            calc (a * 256 + b + 1) * 256 ^ bs.length
                ≤ (a + 1) * 256 * 256 ^ bs.length :=
                  Nat.mul_le_mul_right _ this
              _ = (a + 1) * 256 ^ (bs.length + 1) := by ring
        _ ≤ _ := le_of_eq rfl

theorem beValue_lt (t : List Nat) (h : ∀ b ∈ t, b < 256) :
    beValue t < 256 ^ t.length := by
  have := beValue_aux_lt t 0 h
  simpa [beValue] using this

theorem beValue_beBytes (n : Nat) : beValue (beBytes 16 n) = n % 2 ^ 128 := by
  rw [beValue, foldl_be_beBytes]
  norm_num

/-! ## Lemmas: sector iteration and tableau domain -/

theorem write_sector_calls_aux_eq (start : Nat) :
    ∀ (data : List (List Nat)) (off : Nat), start + off + data.length ≤ 256 →
    write_sector_calls_aux start off data =
      List.zip (List.range' (start + off) data.length) data
  | [], off, _ => by simp [write_sector_calls_aux]
  | d :: rest, off, h => by
      have h1 : off % 256 = off := Nat.mod_eq_of_lt (by simp at h; omega)
      have h2 : (start + off) % 256 = start + off := Nat.mod_eq_of_lt (by simp at h; omega)
      rw [write_sector_calls_aux, h1, h2, List.length_cons, List.range'_succ,
        List.zip_cons_cons, write_sector_calls_aux_eq start rest (off + 1)
          (by simp at h ⊢; omega)]
      rfl

theorem chunksExact2_length : ∀ s : List Char,
    (chunksExact2 s).length = s.length / 2
  | [] => rfl
  | [x] => by
      rw [show chunksExact2 [x] = [] from rfl]
      norm_num
  | x :: y :: rest => by
      rw [chunksExact2, List.length_cons, List.length_cons, List.length_cons,
        chunksExact2_length rest]
      omega

theorem loop_isSome : ∀ (ps : List (Char × Char)) (idx : Nat) (tab : List Nat),
    idx ≤ 16 →
    ((hexa_to_tableau_loop ps idx tab).isSome ↔
      (∀ p ∈ ps, parse_u8_hex p.1 p.2 ≠ none) ∧ idx + ps.length ≤ 16)
  | [], idx, tab, h => by
      simp [hexa_to_tableau_loop]
      omega
  | (c1, c2) :: rest, idx, tab, h => by
      rw [hexa_to_tableau_loop]
      cases hp : parse_u8_hex c1 c2 with
      | none =>
          simp only [Option.isSome_none, Bool.false_eq_true, false_iff]
          intro hcontra
          exact hcontra.1 (c1, c2) (List.mem_cons_self _ _) hp
      | some byte =>
          rw [show (match some byte with
              | none => none
              | some b => if idx < 16 then
                  hexa_to_tableau_loop rest (idx + 1) (tab.set idx b)
                else none) =
            (if idx < 16 then hexa_to_tableau_loop rest (idx + 1) (tab.set idx byte)
              else none) from rfl]
          by_cases hidx : idx < 16
          · rw [if_pos hidx]
            rw [loop_isSome rest (idx + 1) (tab.set idx byte) (by omega)]
            constructor
            · rintro ⟨hall, hlen⟩
              refine ⟨?_, by simp; omega⟩
              intro p hple
              rcases List.mem_cons.mp hple with rfl | hm
              · simp [hp]
              · exact hall p hm
            · rintro ⟨hall, hlen⟩
              refine ⟨fun p hm => hall p (List.mem_cons_of_mem _ hm), ?_⟩
              simp at hlen
              omega
          · rw [if_neg hidx]
            simp only [Option.isSome_none, Bool.false_eq_true, false_iff]
            rintro ⟨-, hlen⟩
            simp at hlen
            omega

/-! ## Claim theorems -/

/-- C1: for every block number `b < 4` and any data, the write operation
transmits nothing and leaves all card state unchanged; for every
`b >= 4` exactly one write frame with P2 equal to that exact `b` is
transmitted. -/
theorem write_block_protection (card : Card) (b : Nat) (data : List Nat)
    (hb : b < 256) :
    (b < 4 → write card b data = (card, [])) ∧
    (4 ≤ b → write card b data =
        (card_apply_write card b data, [write_apdu b data]) ∧
      (write_apdu b data).get? 3 = some b) := by
  constructor
  · intro h
    rw [write, if_pos h]
  · intro h
    refine ⟨?_, rfl⟩
    rw [write, if_neg (by omega)]

/-- Witness for C1 at blocks 2 and 5. -/
theorem write_block_protection_witness :
    write testCard 2 (List.replicate 16 0) = (testCard, []) ∧
    write testCard 5 (List.replicate 16 0) =
      (card_apply_write testCard 5 (List.replicate 16 0),
        [write_apdu 5 (List.replicate 16 0)]) ∧
    (write_apdu 5 (List.replicate 16 0)).get? 3 = some 5 :=
  ⟨(write_block_protection testCard 2 (List.replicate 16 0) (by decide)).1
      (by decide),
   (write_block_protection testCard 5 (List.replicate 16 0) (by decide)).2
      (by decide)⟩

/-- C2: for every non-negative `i128` value `v` (hence `v < 2 ^ 127`),
decoding the encoding of `v` (32-character zero-left-padded uppercase hex,
packed into 16 bytes by `hexa_to_tableau`, decoded by `hexa_to_decimal`)
returns `v`. -/
theorem encode_decode_roundtrip (v : Int) (h0 : 0 ≤ v) (h1 : v < 2 ^ 127) :
    (hexa_to_tableau (format_hex32 v)).map hexa_to_decimal = some v := by
  rw [tableau_format, Option.map_some']
  have hbits : i128_bits v = v.toNat := by
    rw [i128_bits, Int.emod_eq_of_lt h0 (by omega)]
  have htn : v.toNat < 2 ^ 127 := by omega
  rw [encode16, hexa_to_decimal_eq, beValue_beBytes, hbits,
    Nat.mod_eq_of_lt (show v.toNat < 2 ^ 128 by omega),
    Nat.mod_eq_of_lt (show v.toNat < 2 ^ 128 by omega),
    i128_val, if_pos htn]
  congr 1
  omega

/-- Witness for C2 at `v = 16`. -/
theorem encode_decode_roundtrip_witness :
    (0 : Int) ≤ 16 ∧ (16 : Int) < 2 ^ 127 ∧
    (hexa_to_tableau (format_hex32 16)).map hexa_to_decimal = some 16 :=
  ⟨by decide, by norm_num, encode_decode_roundtrip 16 (by decide) (by norm_num)⟩

/-- C3 counterexample: on the 16-byte block 80 00 ... 00, `hexa_to_decimal`
returns a negative value, refuting "the returned value is always
non-negative" and "returns the big-endian base-256 value". -/
theorem hexa_to_decimal_negative_example :
    hexa_to_decimal (0x80 :: List.replicate 15 0) = -(2 ^ 127) ∧
    beValue (0x80 :: List.replicate 15 0) = 2 ^ 127 ∧
    hexa_to_decimal (0x80 :: List.replicate 15 0) < 0 := by
  refine ⟨by decide, by decide, by decide⟩

/-- C3 amended: for every 16-byte block content, `hexa_to_decimal` returns
the big-endian base-256 value reinterpreted as a signed 128-bit
twos-complement integer: the value itself when it is below `2 ^ 127`, and
the (negative) value minus `2 ^ 128` otherwise. -/
theorem hexa_to_decimal_signed_be (t : List Nat) (hlen : t.length = 16)
    (hbytes : ∀ b ∈ t, b < 256) :
    hexa_to_decimal t = i128_val (beValue t) ∧
    (beValue t < 2 ^ 127 → hexa_to_decimal t = (beValue t : Int)) ∧
    (2 ^ 127 ≤ beValue t →
      hexa_to_decimal t = (beValue t : Int) - 2 ^ 128 ∧ hexa_to_decimal t < 0) := by
  have hv : beValue t < 2 ^ 128 := by
    have hb := beValue_lt t hbytes
    rw [hlen] at hb
    calc beValue t < 256 ^ 16 := hb
      _ = 2 ^ 128 := by norm_num
  have heq : hexa_to_decimal t = i128_val (beValue t) := by
    rw [hexa_to_decimal_eq, Nat.mod_eq_of_lt hv]
  refine ⟨heq, fun h => by rw [heq, i128_val, if_pos h], fun h => ?_⟩
  have hnot : ¬ beValue t < 2 ^ 127 := not_lt.mpr h
  refine ⟨by rw [heq, i128_val, if_neg hnot], ?_⟩
  rw [heq, i128_val, if_neg hnot]
  have hcast : (beValue t : Int) < 2 ^ 128 := by exact_mod_cast hv
  omega

/-- Witness for the amended C3 at the all-zero block. -/
theorem hexa_to_decimal_signed_be_witness :
    (List.replicate 16 0 : List Nat).length = 16 ∧
    (hexa_to_decimal (List.replicate 16 0) = i128_val (beValue (List.replicate 16 0)) ∧
      (beValue (List.replicate 16 0) < 2 ^ 127 →
        hexa_to_decimal (List.replicate 16 0) = (beValue (List.replicate 16 0) : Int)) ∧
      (2 ^ 127 ≤ beValue (List.replicate 16 0) →
        hexa_to_decimal (List.replicate 16 0) =
          (beValue (List.replicate 16 0) : Int) - 2 ^ 128 ∧
        hexa_to_decimal (List.replicate 16 0) < 0)) :=
  ⟨rfl, hexa_to_decimal_signed_be (List.replicate 16 0) rfl (by decide)⟩

/-- C4: `keyload` returns 1 for every successful transmission, even when
the response status word is not 90 00 (the status-word check after the
`match` is unreachable there), contradicting the claim that it returns 0
for a status word other than 90 00; `auth` does follow its claimed rule
(0 when the first response byte differs from 0x90, 1 when it is 0x90). -/
theorem keyload_status_ignored :
    keyload (Except.ok (buffer256 [0x63, 0x00])) = 1 ∧
    (buffer256 [0x63, 0x00]).take 2 ≠ [0x90, 0x00] ∧
    auth (buffer256 [0x63, 0x00]) = 0 ∧
    auth (buffer256 [0x90, 0x00]) = 1 :=
  ⟨rfl, by decide, rfl, rfl⟩

/-- C5: after a write, the code prints "Success" exactly when the response
byte at index 16 differs from 0x90: a card-reported failure status word
63 00 (first byte not 0x90) is reported as success, and a response whose
byte 16 equals 0x90 is reported as failure. -/
theorem write_report_inverted :
    write_report (buffer256 [0x63, 0x00]) = "Success" ∧
    (buffer256 [0x63, 0x00]).headD 0 = 0x63 ∧
    write_report (buffer256 (List.replicate 17 0x90)) = "Failed" ∧
    (buffer256 (List.replicate 17 0x90)).headD 0 = 0x90 :=
  ⟨rfl, rfl, rfl, rfl⟩

/-- C6 counterexample: the `read_sector` in main.rs reads blocks
`s, s+1, s+2, s+3`, not `4s, 4s+1, 4s+2`: at sector 1 it reads
[1, 2, 3, 4]. -/
theorem main_read_sector_not_four_s :
    main_read_sector_blocks 1 = [1, 2, 3, 4] ∧
    main_read_sector_blocks 1 ≠ [4 * 1, 4 * 1 + 1, 4 * 1 + 2] := by
  refine ⟨by decide, by decide⟩

/-- C6 amended: `CardManager::read_sector s` reads exactly blocks
`4s, 4s+1, 4s+2` in that increasing order and `CardManager::write_sector`
writes `data.length` blocks starting at `4s` in increasing order, while
the separate `read_sector` in main.rs reads the four blocks
`t, t+1, t+2, t+3`. -/
theorem sector_iteration_order (s t : Nat) (data : List (List Nat))
    (hs : s < 64) (hd : 4 * s + data.length ≤ 256) (ht : t + 4 < 256) :
    read_sector_blocks s = [4 * s, 4 * s + 1, 4 * s + 2] ∧
    write_sector_calls s data = List.zip (List.range' (4 * s) data.length) data ∧
    main_read_sector_blocks t = [t, t + 1, t + 2, t + 3] := by
  have hc : s * 4 = 4 * s := Nat.mul_comm s 4
  refine ⟨?_, ?_, ?_⟩
  · show [s * 4 % 256 + 0, s * 4 % 256 + 1, s * 4 % 256 + 2] = _
    rw [Nat.mod_eq_of_lt (by omega : s * 4 < 256), hc]
    norm_num
  · rw [write_sector_calls, Nat.mod_eq_of_lt (by omega : s * 4 < 256),
      write_sector_calls_aux_eq (s * 4) data 0 (by omega), Nat.add_zero, hc]
  · rw [main_read_sector_blocks, Nat.mod_eq_of_lt ht,
      show t + 4 - t = 4 from by omega]
    show [t + 0, t + 1, t + 2, t + 3] = _
    norm_num

/-- Witness for the amended C6 at sector 1, two data blocks, and index 7. -/
theorem sector_iteration_order_witness :
    read_sector_blocks 1 = [4 * 1, 4 * 1 + 1, 4 * 1 + 2] ∧
    write_sector_calls 1 [[0], [1]] =
      List.zip (List.range' (4 * 1) ([[0], [1]] : List (List Nat)).length) [[0], [1]] ∧
    main_read_sector_blocks 7 = [7, 7 + 1, 7 + 2, 7 + 3] :=
  sector_iteration_order 1 7 [[0], [1]] (by decide) (by decide) (by decide)

/-- C7: a withdrawal strictly greater than the balance is refused before
any card write: no frame transmitted, balance and card unchanged. -/
theorem retrait_insufficient_refused (balance amount : Int) (card : Card)
    (h : balance < amount) :
    main_step (Command.retrait amount) balance card = some (balance, card, []) := by
  simp only [main_step]
  rw [if_neg (by omega : ¬ amount ≤ balance)]

/-- Witness for C7: retrait 100 against balance 21 is refused. -/
theorem retrait_insufficient_refused_witness :
    main_step (Command.retrait 100) 21 testCard = some (21, testCard, []) :=
  retrait_insufficient_refused 21 100 testCard (by decide)

/-- C8: from block 4 content 00...0010 (decoded balance 16), the command
depot 5 yields balance 21 and exactly one write to block 4 whose payload
is the 16 bytes of hex string 00...0015. -/
theorem depot_example :
    hexa_to_tableau ("00000000000000000000000000000010".toList) = some block4_init ∧
    hexa_to_decimal block4_init = 16 ∧
    hexa_to_tableau ("00000000000000000000000000000015".toList) = some block4_new ∧
    main_step (Command.depot 5) 16 card_C8 =
      some (21, card_apply_write card_C8 4 block4_new, [write_apdu 4 block4_new]) ∧
    card_apply_write card_C8 4 block4_new 4 = block4_new := by
  refine ⟨by decide, by decide, by decide, ?_, rfl⟩
  simp only [main_step]
  rw [show (16 : Int) + 5 = 21 from rfl,
    show i128_wrap 21 = 21 from by decide, tableau_format]
  rfl

/-- C9: `hexa_to_tableau` panics (modelled `none`) on every string of
valid hex pairs longer than 32 characters, panics whenever some complete
2-character chunk is not valid hexadecimal, and returns normally exactly
when every complete chunk is valid hex and there are at most 16 chunks. -/
theorem hexa_to_tableau_domain (s : List Char) :
    ((∀ p ∈ chunksExact2 s, parse_u8_hex p.1 p.2 ≠ none) → s.length % 2 = 0 →
      32 < s.length → hexa_to_tableau s = none) ∧
    ((∃ p ∈ chunksExact2 s, parse_u8_hex p.1 p.2 = none) →
      hexa_to_tableau s = none) ∧
    ((hexa_to_tableau s).isSome ↔
      (∀ p ∈ chunksExact2 s, parse_u8_hex p.1 p.2 ≠ none) ∧
        (chunksExact2 s).length ≤ 16) := by
  have hchar :=
    loop_isSome (chunksExact2 s) 0 (List.replicate 16 0) (by norm_num)
  rw [Nat.zero_add] at hchar
  have hiff : (hexa_to_tableau s).isSome ↔
      (∀ p ∈ chunksExact2 s, parse_u8_hex p.1 p.2 ≠ none) ∧
        (chunksExact2 s).length ≤ 16 := by
    rw [hexa_to_tableau]
    exact hchar
  refine ⟨?_, ?_, hiff⟩
  · intro _ heven hlen
    have hchunks : 16 < (chunksExact2 s).length := by
      rw [chunksExact2_length]
      omega
    cases hopt : hexa_to_tableau s with
    | none => rfl
    | some t =>
        have hsome : (hexa_to_tableau s).isSome := by rw [hopt]; rfl
        rw [hiff] at hsome
        exact absurd hsome.2 (by omega)
  · rintro ⟨p, hmem, hp⟩
    cases hopt : hexa_to_tableau s with
    | none => rfl
    | some t =>
        have hsome : (hexa_to_tableau s).isSome := by rw [hopt]; rfl
        rw [hiff] at hsome
        exact absurd hp (hsome.1 p hmem)

/-- Witness for C9: a 34-character all-zero string makes
`hexa_to_tableau` panic. -/
theorem hexa_to_tableau_domain_witness :
    hexa_to_tableau (List.replicate 34 '0') = none :=
  (hexa_to_tableau_domain (List.replicate 34 '0')).1 (by decide) (by decide)
    (by decide)

/-- C10 counterexample: at the in-range program state balance = 2^127 - 1
(block 4 holding 7F FF ... FF) with amount -1, retrait is accepted but the
`i128` subtraction overflows: the stored balance becomes -(2^127) (wrapped,
as in a release build; a debug build panics here instead) and the bytes
80 00 ... 00 are written, so the balance does not increase by the absolute
value of the amount. -/
theorem retrait_overflow_example :
    main_step (Command.retrait (-1)) (2 ^ 127 - 1) testCard =
      some (-(2 ^ 127),
        card_apply_write testCard 4 (encode16 (-(2 ^ 127))),
        [write_apdu 4 (encode16 (-(2 ^ 127)))]) ∧
    encode16 (-(2 ^ 127)) = 0x80 :: List.replicate 15 0 ∧
    (-(2 ^ 127) : Int) < 2 ^ 127 - 1 := by
  refine ⟨?_, by decide, by decide⟩
  simp only [main_step]
  rw [if_pos (by norm_num : (-1 : Int) ≤ 2 ^ 127 - 1),
    show i128_wrap (2 ^ 127 - 1 - (-1)) = -(2 ^ 127) from by decide,
    tableau_format]
  rfl

/-- C10 amended: the withdrawal guard has no lower bound on the amount:
for a non-negative `i128` balance and negative `i128` amount, whenever the
new balance still fits in `i128`, retrait of the negative amount is
accepted, increases the balance by its absolute value, and writes the
larger balance to block 4; depot of a negative amount (which cannot
overflow under these bounds) decreases the balance, possibly below zero,
and writes it to the card. -/
theorem negative_amount_accepted (balance amount : Int) (card : Card)
    (hb0 : 0 ≤ balance) (hb1 : balance < 2 ^ 127)
    (ha0 : -(2 ^ 127) ≤ amount) (ha : amount < 0)
    (hnof : balance - amount < 2 ^ 127) :
    main_step (Command.retrait amount) balance card =
      some (balance - amount,
        card_apply_write card 4 (encode16 (balance - amount)),
        [write_apdu 4 (encode16 (balance - amount))]) ∧
    balance - amount = balance + |amount| ∧
    balance < balance - amount ∧
    main_step (Command.depot amount) balance card =
      some (balance + amount,
        card_apply_write card 4 (encode16 (balance + amount)),
        [write_apdu 4 (encode16 (balance + amount))]) ∧
    balance + amount < balance := by
  refine ⟨?_, by rw [abs_of_neg ha]; ring, by omega, ?_, by omega⟩
  · simp only [main_step]
    rw [if_pos (by omega : amount ≤ balance),
      i128_wrap_eq_self (balance - amount) (by omega) hnof, tableau_format]
    rfl
  · simp only [main_step]
    rw [i128_wrap_eq_self (balance + amount) (by omega) (by omega),
      tableau_format]
    rfl

/-- Witness for the amended C10 at balance 21 and amount -100: retrait
-100 yields balance 121, depot -100 yields balance -79, both written to
block 4. -/
theorem negative_amount_accepted_witness :
    main_step (Command.retrait (-100)) 21 testCard =
      some (21 - (-100),
        card_apply_write testCard 4 (encode16 (21 - (-100))),
        [write_apdu 4 (encode16 (21 - (-100)))]) ∧
    (21 : Int) - (-100) = 21 + |(-100 : Int)| ∧
    (21 : Int) < 21 - (-100) ∧
    main_step (Command.depot (-100)) 21 testCard =
      some (21 + (-100),
        card_apply_write testCard 4 (encode16 (21 + (-100))),
        [write_apdu 4 (encode16 (21 + (-100)))]) ∧
    (21 : Int) + (-100) < 21 :=
  negative_amount_accepted 21 (-100) testCard (by decide) (by norm_num)
    (by norm_num) (by decide) (by norm_num)

end RFID
